import Mathlib

/-!
Shallow embedding of the github-issues-export tool (src/main.rs, src/model.rs,
src/template.rs). Rust strings are modelled as lists of characters; raw byte
buffers and UTF-8 encoded output text (slugs, filenames, HTTP bodies) are
modelled as lists of natural numbers below 256. Fallible operations return
Except, and the external world (the HTTP transport, the URI parser of the
hyper crate, the filesystem, the deunicode table of the slug crate) enters as
explicit parameters, so that every definition below is executable.
-/

set_option autoImplicit false

namespace Ghie

/-! ### Data model (src/model.rs) -/

/-- Record model.rs::Label. -/
structure Label where
  url : List Char
  name : List Char
  color : List Char
deriving DecidableEq

/-- Record model.rs::User. -/
structure User where
  login : List Char
  id : Nat
  avatar_url : List Char
  gravatar_id : List Char
  url : List Char
  html_url : List Char
  followers_url : List Char
  following_url : List Char
  gists_url : List Char
  starred_url : List Char
  subscriptions_url : List Char
  organizations_url : List Char
  repos_url : List Char
  events_url : List Char
  received_events_url : List Char
  site_admin : Bool
deriving DecidableEq

/-- Record model.rs::Issue. -/
structure Issue where
  id : Nat
  url : List Char
  labels_url : List Char
  comments_url : List Char
  events_url : List Char
  html_url : List Char
  number : Nat
  state : List Char
  title : List Char
  body : List Char
  user : User
  labels : List Label
  assignee : Option User
  locked : Bool
  comments : Nat
  closed_at : Option (List Char)
  created_at : List Char
  updated_at : List Char
deriving DecidableEq

/-- Record model.rs::Comment. -/
structure Comment where
  id : Nat
  url : List Char
  html_url : List Char
  body : List Char
  user : User
  created_at : List Char
  updated_at : List Char
deriving DecidableEq

/-- Record model.rs::IssueWithComments: the aggregate handed to the renderer. -/
structure IssueWithComments where
  issue : Issue
  comments : List Comment
deriving DecidableEq

/-! ### Slugification (the slugify function of the slug crate, called at
main.rs:151) and filename computation (main.rs:146-153) -/

/-- Model of the push_char closure in the slugify function of the slug crate:
an ASCII alphanumeric byte is emitted (uppercase lowered by adding 32), any
other byte is collapsed into a single hyphen (byte 45). The Bool component is
the prev_is_dash flag; it starts true, so no leading hyphen is emitted. -/
def slugPush (st : List Nat × Bool) (x : Nat) : List Nat × Bool :=
  if (97 ≤ x ∧ x ≤ 122) ∨ (48 ≤ x ∧ x ≤ 57) then (st.1 ++ [x], false)
  else if 65 ≤ x ∧ x ≤ 90 then (st.1 ++ [x - 65 + 97], false)
  else if st.2 then st else (st.1 ++ [45], true)

/-- One source character of the title: an ASCII character feeds its code point
to slugPush directly; any other character is transliterated through the
deunicode table, modelled as the parameter du, with a hyphen as the fallback
for untransliterable characters, and every resulting byte fed to slugPush. -/
def slugChar (du : Char → Option (List Nat)) (st : List Nat × Bool) (c : Char) :
    List Nat × Bool :=
  if c.toNat ≤ 127 then slugPush st c.toNat
  else ((du c).getD [45]).foldl slugPush st

/-- Model of slug::slugify: fold the title through slugChar starting from the
empty buffer with prev_is_dash set, then pop a trailing hyphen if present. -/
def slugify (du : Char → Option (List Nat)) (t : List Char) : List Nat :=
  let st := t.foldl (slugChar du) ([], true)
  if st.1.getLast? = some 45 then st.1.dropLast else st.1

/-- Decimal digit bytes of n, most significant first, as ASCII digits. -/
def decimalDigits (n : Nat) : List Nat :=
  if _h : n < 10 then [48 + n]
  else decimalDigits (n / 10) ++ [48 + n % 10]
decreasing_by exact Nat.div_lt_self (by omega) (by omega)

/-- Zero-padding of the 03 width directive in the format string at
main.rs:148: pad the decimal digits with ASCII zeros to a minimum width of
three bytes. -/
def pad3 (n : Nat) : List Nat :=
  List.replicate (3 - (decimalDigits n).length) 48 ++ decimalDigits n

/-- Model of main.rs::issue_to_filename: path, a slash, the issue number
padded to three digits, a hyphen, the slugified title, and the .md extension
(bytes 47 = slash, 45 = hyphen, 46 109 100 = dot m d). -/
def issue_to_filename (du : Char → Option (List Nat)) (path : List Nat)
    (issue : Issue) : List Nat :=
  path ++ [47] ++ pad3 issue.number ++ [45] ++ slugify du issue.title ++ [46, 109, 100]

/-- A byte that may occur in a slug: a lowercase ASCII letter, an ASCII digit,
or a hyphen. -/
def IsSlugByte (b : Nat) : Prop :=
  (97 ≤ b ∧ b ≤ 122) ∨ (48 ≤ b ∧ b ≤ 57) ∨ b = 45

instance (b : Nat) : Decidable (IsSlugByte b) := by
  unfold IsSlugByte; infer_instance

/-- No two adjacent hyphens occur in the byte list. -/
def NoTwoDashes (l : List Nat) : Prop :=
  List.Chain' (fun a b => ¬(a = 45 ∧ b = 45)) l

/-- Invariant maintained by the slug accumulator: only slug bytes, no leading
hyphen, no adjacent hyphens, and the prev_is_dash flag is set exactly when the
buffer is empty or ends in a hyphen. -/
def SlugInv (st : List Nat × Bool) : Prop :=
  (∀ b ∈ st.1, IsSlugByte b) ∧
  st.1.head? ≠ some 45 ∧
  NoTwoDashes st.1 ∧
  (st.2 = true ↔ (st.1 = [] ∨ st.1.getLast? = some 45))

/-! ### The API client (main.rs:53-132) -/

/-- A parsed URI, as produced by the URI parser of the hyper crate. The
parser itself is external; only its verdict matters to the client. -/
structure Uri where
  raw : List Char
deriving DecidableEq

/-- A transport-level error of the hyper crate. -/
structure HyperErr where
  msg : List Char
deriving DecidableEq

/-- An error reported while the URI parser rejects the endpoint string. -/
structure UriErr where
  msg : List Char
deriving DecidableEq

/-- The error cases that Github::get can produce through the errors module of
main.rs: a transport error (foreign link Hyper), ErrorKind::Request carrying
the body text of a non-success response (represented by its UTF-8 bytes), the
foreign-linked Utf8 error produced by the strict str::from_utf8 call at
main.rs:92, and the chained JSON decode error of main.rs:95-96. -/
inductive GetError where
  | hyper (e : HyperErr)
  | request (body : List Nat)
  | utf8
  | jsonParse
deriving DecidableEq

/-- Outcome of Github::get: either a panic (the expect call at main.rs:80), an
error value of the Result type, or a decoded value. -/
inductive GetOutcome (α : Type) where
  | panicked
  | error (e : GetError)
  | ok (v : α)
deriving DecidableEq

/-- True exactly on an ErrorKind::Request outcome. -/
def isRequestError {α : Type} : GetOutcome α → Bool
  | GetOutcome.error (GetError.request _) => true
  | _ => false

/-- The only request method used by the client. -/
inductive HttpMethod where
  | get
deriving DecidableEq

/-- The request assembled at main.rs:81-85: method, URI and the four headers
set on it. -/
structure RequestModel where
  method : HttpMethod
  uri : Uri
  user_agent : List Char
  authorization : List Char
  content_type : List Char
  content_length : Nat
deriving DecidableEq

/-- The authorization scheme prefix written at main.rs:72: the word token
followed by a space. -/
def tokenWord : List Char := ['t', 'o', 'k', 'e', 'n', ' ']

/-- The value rendered by ContentType::json(). -/
def applicationJson : List Char :=
  ['a', 'p', 'p', 'l', 'i', 'c', 'a', 't', 'i', 'o', 'n', '/', 'j', 's', 'o', 'n']

/-- The client state (main.rs:53-57): the user agent and the precomputed
Authorization value. The HTTP connection pool is external. -/
structure Github where
  user_agent : List Char
  token : List Char

/-- Model of Github::new (main.rs:62-74): stores the agent and formats the
Authorization value as the word token, a space, and the raw token. -/
def Github.new (agent token : List Char) : Github :=
  { user_agent := agent, token := tokenWord ++ token }

/-- Model of the request construction in Github::get (main.rs:81-85). -/
def build_request (g : Github) (uri : Uri) : RequestModel :=
  { method := HttpMethod.get
    uri := uri
    user_agent := g.user_agent
    authorization := g.token
    content_type := applicationJson
    content_length := 0 }

/-- Strict UTF-8 validity of a byte list, following the table Rust
str::from_utf8 checks: one-byte sequences below 128, two-byte sequences
C2-DF with one continuation byte, three-byte sequences E0/E1-EC/ED/EE-EF with
the usual restricted first continuation, four-byte sequences F0/F1-F3/F4
likewise, continuation bytes being 80-BF. -/
def utf8Valid : List Nat → Bool
  | [] => true
  | b :: rest =>
    if b ≤ 0x7F then utf8Valid rest
    else if 0xC2 ≤ b ∧ b ≤ 0xDF then
      match rest with
      | b1 :: r => (0x80 ≤ b1 && b1 ≤ 0xBF) && utf8Valid r
      | [] => false
    else if b = 0xE0 then
      match rest with
      | b1 :: b2 :: r =>
        (0xA0 ≤ b1 && b1 ≤ 0xBF) && (0x80 ≤ b2 && b2 ≤ 0xBF) && utf8Valid r
      | _ => false
    else if (0xE1 ≤ b ∧ b ≤ 0xEC) ∨ (0xEE ≤ b ∧ b ≤ 0xEF) then
      match rest with
      | b1 :: b2 :: r =>
        (0x80 ≤ b1 && b1 ≤ 0xBF) && (0x80 ≤ b2 && b2 ≤ 0xBF) && utf8Valid r
      | _ => false
    else if b = 0xED then
      match rest with
      | b1 :: b2 :: r =>
        (0x80 ≤ b1 && b1 ≤ 0x9F) && (0x80 ≤ b2 && b2 ≤ 0xBF) && utf8Valid r
      | _ => false
    else if b = 0xF0 then
      match rest with
      | b1 :: b2 :: b3 :: r =>
        (0x90 ≤ b1 && b1 ≤ 0xBF) && (0x80 ≤ b2 && b2 ≤ 0xBF) &&
          (0x80 ≤ b3 && b3 ≤ 0xBF) && utf8Valid r
      | _ => false
    else if 0xF1 ≤ b ∧ b ≤ 0xF3 then
      match rest with
      | b1 :: b2 :: b3 :: r =>
        (0x80 ≤ b1 && b1 ≤ 0xBF) && (0x80 ≤ b2 && b2 ≤ 0xBF) &&
          (0x80 ≤ b3 && b3 ≤ 0xBF) && utf8Valid r
      | _ => false
    else if b = 0xF4 then
      match rest with
      | b1 :: b2 :: b3 :: r =>
        (0x80 ≤ b1 && b1 ≤ 0x8F) && (0x80 ≤ b2 && b2 ≤ 0xBF) &&
          (0x80 ≤ b3 && b3 ≤ 0xBF) && utf8Valid r
      | _ => false
    else false

/-- Model of Github::get (main.rs:76-101). The URI parse verdict of the hyper
crate and the transport are parameters: a parse failure is turned into a panic
by the expect call at main.rs:80, never into an error value. On a transport
result, a non-success status makes the body pass through the strict
str::from_utf8 call (a Utf8 error on invalid bytes, ErrorKind::Request on the
decoded text, represented by its bytes); a success status decodes the body as
JSON through the decode parameter, a chained parse error on failure. The
transport receives exactly the request assembled by build_request. -/
def Github.get {α : Type} (g : Github) (uriParse : Except UriErr Uri)
    (transport : RequestModel → Except HyperErr (Bool × List Nat))
    (decode : List Nat → Option α) : GetOutcome α :=
  match uriParse with
  | Except.error _ => GetOutcome.panicked
  | Except.ok uri =>
    match transport (build_request g uri) with
    | Except.error e => GetOutcome.error (GetError.hyper e)
    | Except.ok (success, chunk) =>
      if success = false then
        if utf8Valid chunk then GetOutcome.error (GetError.request chunk)
        else GetOutcome.error GetError.utf8
      else
        match decode chunk with
        | some v => GetOutcome.ok v
        | none => GetOutcome.error GetError.jsonParse

/-! ### Directory creation (main.rs:134-144) -/

/-- The kinds of std::io::Error relevant to mkdir. -/
inductive IoErrorKind where
  | alreadyExists
  | notFound
  | permissionDenied
  | otherKind
deriving DecidableEq

/-- A std::io::Error, reduced to its kind. -/
structure IoError where
  kind : IoErrorKind
deriving DecidableEq

/-- An abstract filesystem: the set of existing directories plus an
environment-chosen fault (parent missing, permission denied, and so on) for
paths that do not yet exist. -/
structure Fs where
  dirs : List (List Char)
  faults : List Char → Option IoErrorKind

/-- Model of std::fs::create_dir: creating an existing directory reports
AlreadyExists; otherwise the environment fault, if any, is reported, and on
success the directory is added. -/
def create_dir (fs : Fs) (path : List Char) : Except IoError Fs :=
  if path ∈ fs.dirs then Except.error { kind := IoErrorKind.alreadyExists }
  else
    match fs.faults path with
    | some k => Except.error { kind := k }
    | none => Except.ok { fs with dirs := path :: fs.dirs }

/-- Model of main.rs::mkdir: an AlreadyExists error from create_dir is
swallowed, every other error is returned (the cause is carried unchanged),
success is success. -/
def mkdir (fs : Fs) (path : List Char) : Except IoError Unit :=
  match create_dir fs path with
  | Except.error err =>
    match err.kind with
    | IoErrorKind.alreadyExists => Except.ok ()
    | _ => Except.error err
  | Except.ok _ => Except.ok ()

/-! ### Query parsing (the block at main.rs:233-256 of parse_args) -/

/-- The parsed query: arg_username, arg_repo and arg_issue of the Args
record. -/
structure Query where
  owner : List Char
  repo : List Char
  issue_number : Option Nat
deriving DecidableEq

/-- Split a character list at every occurrence of the separator, keeping
empty segments, as Rust str::split does with a single-character pattern. -/
def splitOnChar (sep : Char) : List Char → List (List Char)
  | [] => [[]]
  | c :: rest =>
    match splitOnChar sep rest with
    | [] => [[]]
    | h :: t => if c = sep then [] :: h :: t else (c :: h) :: t

/-- Drop one optional leading plus sign, as Rust integer parsing allows. -/
def stripPlus (s : List Char) : List Char :=
  match s with
  | '+' :: rest => rest
  | _ => s

/-- Model of Rust str::parse::<usize>: an optional leading plus sign, then a
nonempty run of ASCII digits, rejecting values that overflow 64 bits. -/
def parse_usize (s : List Char) : Option Nat :=
  let ds := stripPlus s
  if ds = [] then none
  else if ds.all Char.isDigit then
    let v := ds.foldl (fun a c => a * 10 + (c.toNat - 48)) 0
    if v < 2 ^ 64 then some v else none
  else none

/-- Model of the query-parsing block of parse_args (main.rs:233-256): split on
the slash and require exactly two parts; split the second part on the hash
mark; one part means no issue number, two parts mean the second must parse as
usize; anything else is an argument error, modelled as none (the program
prints usage and exits with status 1). -/
def parse_query (q : List Char) : Option Query :=
  match splitOnChar '/' q with
  | [owner, rest] =>
    match splitOnChar '#' rest with
    | [repo] => some { owner := owner, repo := repo, issue_number := none }
    | [repo, num] =>
      match parse_usize num with
      | some n => some { owner := owner, repo := repo, issue_number := some n }
      | none => none
    | _ => none
  | _ => none

/-! ### The fetch pipeline (main.rs:286-312 of run) -/

/-- Model of futures::future::join_all over already-determined results: the
whole list on success, the error of the failed element on failure (futures
0.1 join_all resolves to the error of the first failing element; when a
single element fails the two coincide). -/
def joinAll {ε α : Type} : List (Except ε α) → Except ε (List α)
  | [] => Except.ok []
  | Except.error e :: _ => Except.error e
  | Except.ok v :: rest =>
    match joinAll rest with
    | Except.error e => Except.error e
    | Except.ok vs => Except.ok (v :: vs)

/-- Model of fut_issues_with_comments (main.rs:286-294): for every issue of
the resolved issue list, join the issue with the result of fetching its
comments_url, and join_all over the whole list. The comment fetch is the
get call of main.rs:291, modelled as the fetch parameter keyed by the
comments_url field. -/
def fut_issues_with_comments (issues : List Issue)
    (fetch : List Char → Except GetError (List Comment)) :
    Except GetError (List (Issue × List Comment)) :=
  joinAll (issues.map (fun issue => (fetch issue.comments_url).map (fun cs => (issue, cs))))

/-- Model of fut_data (main.rs:295-302): wrap every fetched pair into an
IssueWithComments aggregate. -/
def fut_data (issues : List Issue)
    (fetch : List Char → Except GetError (List Comment)) :
    Except GetError (List IssueWithComments) :=
  (fut_issues_with_comments issues fetch).map
    (fun l => l.map (fun p => { issue := p.1, comments := p.2 }))

/-- Model of the tail of run (main.rs:304-314): the pipeline result is awaited
first; on error the run fails with that error and writes nothing, otherwise
the serialization loop writes one file per aggregate, in list order. The
returned list is the sequence of filenames written. Rendering and the file
writes themselves are modelled as succeeding (a failing write would stop the
loop after a prefix of this sequence). -/
def run (du : Char → Option (List Nat)) (issues : List Issue)
    (fetch : List Char → Except GetError (List Comment)) (path : List Nat) :
    Except GetError Unit × List (List Nat) :=
  match fut_data issues fetch with
  | Except.error e => (Except.error e, [])
  | Except.ok aggs => (Except.ok (), aggs.map (fun a => issue_to_filename du path a.issue))

/-! ### Concurrency structure of the fan-out (main.rs:286-294)

The join_all combinator polls every not-yet-completed child future whenever
it is itself polled, and the executor polls it before waiting for events, so
the first poll issues every HTTP request; a request can complete only after
it has been started. The pool state records each comment fetch as not yet
started, in flight, or completed. -/

/-- The state of one comment fetch. -/
inductive FetchStatus where
  | notStarted
  | inFlight
  | completed
deriving DecidableEq, BEq

/-- The state of the fan-out: one status per issue. -/
abbrev PoolState := List FetchStatus

/-- One poll of join_all: every not-yet-started fetch is started. -/
def pollAll (s : PoolState) : PoolState :=
  s.map (fun st =>
    match st with
    | FetchStatus.notStarted => FetchStatus.inFlight
    | st => st)

/-- The environment completes the fetch at position i. -/
def completeAt : PoolState → Nat → PoolState
  | [], _ => []
  | _ :: r, 0 => FetchStatus.completed :: r
  | st :: r, i + 1 => st :: completeAt r i

/-- Number of fetches in flight. -/
def inFlightCount (s : PoolState) : Nat :=
  s.countP (fun st => st == FetchStatus.inFlight)

/-- Initial pool over n issues: nothing started. -/
def initState (n : Nat) : PoolState :=
  List.replicate n FetchStatus.notStarted

/-- A step of the fan-out execution: either the executor polls join_all,
starting every pending fetch, or the environment completes one in-flight
fetch. -/
inductive JoinAllStep : PoolState → PoolState → Prop
  | poll (s : PoolState) : JoinAllStep s (pollAll s)
  | completes (s : PoolState) (i : Nat)
      (h : s.get? i = some FetchStatus.inFlight) : JoinAllStep s (completeAt s i)

/-! ### Concrete sample values used by witnesses -/

/-- A user record with empty fields. -/
def emptyUser : User :=
  { login := [], id := 0, avatar_url := [], gravatar_id := [], url := []
    html_url := [], followers_url := [], following_url := [], gists_url := []
    starred_url := [], subscriptions_url := [], organizations_url := []
    repos_url := [], events_url := [], received_events_url := [], site_admin := false }

/-- A sample issue: number 1, title Bug. -/
def sampleIssue : Issue :=
  { id := 1, url := [], labels_url := [], comments_url := ['u'], events_url := []
    html_url := [], number := 1, state := [], title := ['B', 'u', 'g'], body := []
    user := emptyUser, labels := [], assignee := none, locked := false
    comments := 0, closed_at := none, created_at := [], updated_at := [] }

/-- A sample issue with a four-digit number. -/
def bigIssue : Issue := { sampleIssue with number := 1234 }

/-- A sample transport error. -/
def sampleErr : GetError := GetError.hyper { msg := [] }

/-- A comment fetch that always fails with sampleErr. -/
def cFetchFail : List Char → Except GetError (List Comment) :=
  fun _ => Except.error sampleErr

/-- A comment table: every comments_url maps to no comments. -/
def cComments : List Char → List Comment := fun _ => []

/-- A comment fetch that always succeeds with the cComments table. -/
def cFetchOk : List Char → Except GetError (List Comment) :=
  fun u => Except.ok (cComments u)

/-- A transport returning a non-success response with a valid UTF-8 body. -/
def cTransportHi : RequestModel → Except HyperErr (Bool × List Nat) :=
  fun _ => Except.ok (false, [104, 105])

/-- A sample filesystem in which the directory md exists and no fault is
injected. -/
def sampleFs : Fs := { dirs := [['m', 'd']], faults := fun _ => none }

/-! ## Lemmas about splitOnChar -/

theorem splitOnChar_cons_eq (sep c : Char) (rest x : List Char) (t : List (List Char))
    (hr : splitOnChar sep rest = x :: t) :
    splitOnChar sep (c :: rest) = if c = sep then [] :: x :: t else (c :: x) :: t := by
  simp only [splitOnChar, hr]

theorem splitOnChar_ne_nil (sep : Char) (l : List Char) : splitOnChar sep l ≠ [] := by
  induction l with
  | nil => simp [splitOnChar]
  | cons c rest ih =>
    cases hr : splitOnChar sep rest with
    | nil => exact absurd hr ih
    | cons x t =>
      rw [splitOnChar_cons_eq sep c rest x t hr]
      split <;> simp

theorem splitOnChar_eq_single (sep : Char) (l : List Char) (h : sep ∉ l) :
    splitOnChar sep l = [l] := by
  induction l with
  | nil => rfl
  | cons c rest ih =>
    have hc : ¬ c = sep := fun e => h (e ▸ List.mem_cons_self c rest)
    have hr : sep ∉ rest := fun m => h (List.mem_cons_of_mem _ m)
    rw [splitOnChar_cons_eq sep c rest rest [] (ih hr), if_neg hc]

theorem splitOnChar_append (sep : Char) (a b : List Char) (h : sep ∉ a) :
    splitOnChar sep (a ++ sep :: b) = a :: splitOnChar sep b := by
  induction a with
  | nil =>
    cases hb : splitOnChar sep b with
    | nil => exact absurd hb (splitOnChar_ne_nil sep b)
    | cons x t =>
      rw [List.nil_append, splitOnChar_cons_eq sep sep b x t hb, if_pos rfl]
  | cons c a ih =>
    have hc : ¬ c = sep := fun e => h (e ▸ List.mem_cons_self c a)
    have ha : sep ∉ a := fun m => h (List.mem_cons_of_mem _ m)
    rw [List.cons_append,
      splitOnChar_cons_eq sep c (a ++ sep :: b) a (splitOnChar sep b) (ih ha), if_neg hc]

theorem not_mem_of_mem_splitOnChar (sep : Char) (l : List Char) :
    ∀ p ∈ splitOnChar sep l, sep ∉ p := by
  induction l with
  | nil =>
    intro p hp
    simp [splitOnChar] at hp
    subst hp; simp
  | cons c rest ih =>
    intro p hp
    cases hr : splitOnChar sep rest with
    | nil => exact absurd hr (splitOnChar_ne_nil sep rest)
    | cons x t =>
      rw [splitOnChar_cons_eq sep c rest x t hr] at hp
      by_cases hc : c = sep
      · rw [if_pos hc] at hp
        rcases List.mem_cons.mp hp with h1 | h2
        · subst h1; simp
        · exact ih p (by rw [hr]; exact h2)
      · rw [if_neg hc] at hp
        rcases List.mem_cons.mp hp with h1 | h2
        · subst h1
          intro hm
          rcases List.mem_cons.mp hm with h3 | h4
          · exact hc h3.symm
          · exact ih x (by rw [hr]; exact List.mem_cons_self x t) h4
        · exact ih p (by rw [hr]; exact List.mem_cons_of_mem x h2)

theorem mem_of_mem_splitOnChar (sep : Char) (l : List Char) :
    ∀ p ∈ splitOnChar sep l, ∀ c ∈ p, c ∈ l := by
  induction l with
  | nil =>
    intro p hp c hc
    simp [splitOnChar] at hp
    subst hp; simp at hc
  | cons a rest ih =>
    intro p hp c hc
    cases hr : splitOnChar sep rest with
    | nil => exact absurd hr (splitOnChar_ne_nil sep rest)
    | cons x t =>
      rw [splitOnChar_cons_eq sep a rest x t hr] at hp
      by_cases hs : a = sep
      · rw [if_pos hs] at hp
        rcases List.mem_cons.mp hp with h1 | h2
        · subst h1; simp at hc
        · exact List.mem_cons_of_mem a (ih p (by rw [hr]; exact h2) c hc)
      · rw [if_neg hs] at hp
        rcases List.mem_cons.mp hp with h1 | h2
        · subst h1
          rcases List.mem_cons.mp hc with h3 | h4
          · exact h3 ▸ List.mem_cons_self a rest
          · exact List.mem_cons_of_mem a
              (ih x (by rw [hr]; exact List.mem_cons_self x t) c h4)
        · exact List.mem_cons_of_mem a (ih p (by rw [hr]; exact List.mem_cons_of_mem x h2) c hc)

/-! ## Lemmas about parse_usize -/

theorem parse_usize_lt (s : List Char) (n : Nat) (h : parse_usize s = some n) :
    n < 2 ^ 64 := by
  simp only [parse_usize] at h
  split at h
  case isTrue => exact absurd h (by simp)
  case isFalse =>
    split at h
    case isTrue =>
      split at h
      case isTrue h3 => exact Option.some.inj h ▸ h3
      case isFalse => exact absurd h (by simp)
    case isFalse => exact absurd h (by simp)

/-! ## Claim C5: query parsing -/

/-- Claim C5, counterexample: the claim states that a query with an empty
owner or repo fails to parse, but the code performs no emptiness check: the
query consisting of a bare slash parses successfully, with empty owner and
empty repo. -/
theorem parse_query_accepts_empty :
    parse_query ['/'] = some { owner := [], repo := [], issue_number := none } := by
  decide

/-- Claim C5 (amended): a query owner/repo parses with no issue number, a
query owner/repo#N with N parsing as usize parses with issue number N, a
query without a slash fails, and a query whose issue part does not parse as
usize fails; however empty owner or repo segments are accepted (no emptiness
validation is performed, see the counterexample). -/
theorem parse_query_spec :
    (∀ owner repo : List Char, '/' ∉ owner → '/' ∉ repo → '#' ∉ repo →
      parse_query (owner ++ '/' :: repo) =
        some { owner := owner, repo := repo, issue_number := none })
    ∧ (∀ (owner repo ns : List Char) (n : Nat), '/' ∉ owner → '/' ∉ repo → '#' ∉ repo →
        '/' ∉ ns → '#' ∉ ns → parse_usize ns = some n →
      parse_query (owner ++ '/' :: (repo ++ '#' :: ns)) =
        some { owner := owner, repo := repo, issue_number := some n })
    ∧ (∀ q : List Char, '/' ∉ q → parse_query q = none)
    ∧ (∀ owner repo ns : List Char, '/' ∉ owner → '/' ∉ repo → '#' ∉ repo →
        '/' ∉ ns → '#' ∉ ns → parse_usize ns = none →
      parse_query (owner ++ '/' :: (repo ++ '#' :: ns)) = none) := by
  refine ⟨?_, ?_, ?_, ?_⟩
  · intro owner repo ho hr hrh
    have h1 : splitOnChar '/' (owner ++ '/' :: repo) = owner :: splitOnChar '/' repo :=
      splitOnChar_append '/' owner repo ho
    have h2 : splitOnChar '/' repo = [repo] := splitOnChar_eq_single '/' repo hr
    have h3 : splitOnChar '#' repo = [repo] := splitOnChar_eq_single '#' repo hrh
    simp [parse_query, h1, h2, h3]
  · intro owner repo ns n ho hr hrh hns hnsh hp
    have hmix : '/' ∉ repo ++ '#' :: ns := by
      intro hm
      rcases List.mem_append.mp hm with hm | hm
      · exact hr hm
      · rcases List.mem_cons.mp hm with hm | hm
        · exact absurd hm (by decide)
        · exact hns hm
    have h1 : splitOnChar '/' (owner ++ '/' :: (repo ++ '#' :: ns)) =
        owner :: splitOnChar '/' (repo ++ '#' :: ns) :=
      splitOnChar_append '/' owner (repo ++ '#' :: ns) ho
    have h2 : splitOnChar '/' (repo ++ '#' :: ns) = [repo ++ '#' :: ns] :=
      splitOnChar_eq_single '/' (repo ++ '#' :: ns) hmix
    have h3 : splitOnChar '#' (repo ++ '#' :: ns) = repo :: splitOnChar '#' ns :=
      splitOnChar_append '#' repo ns hrh
    have h4 : splitOnChar '#' ns = [ns] := splitOnChar_eq_single '#' ns hnsh
    simp [parse_query, h1, h2, h3, h4, hp]
  · intro q hq
    simp [parse_query, splitOnChar_eq_single '/' q hq]
  · intro owner repo ns ho hr hrh hns hnsh hp
    have hmix : '/' ∉ repo ++ '#' :: ns := by
      intro hm
      rcases List.mem_append.mp hm with hm | hm
      · exact hr hm
      · rcases List.mem_cons.mp hm with hm | hm
        · exact absurd hm (by decide)
        · exact hns hm
    have h1 : splitOnChar '/' (owner ++ '/' :: (repo ++ '#' :: ns)) =
        owner :: splitOnChar '/' (repo ++ '#' :: ns) :=
      splitOnChar_append '/' owner (repo ++ '#' :: ns) ho
    have h2 : splitOnChar '/' (repo ++ '#' :: ns) = [repo ++ '#' :: ns] :=
      splitOnChar_eq_single '/' (repo ++ '#' :: ns) hmix
    have h3 : splitOnChar '#' (repo ++ '#' :: ns) = repo :: splitOnChar '#' ns :=
      splitOnChar_append '#' repo ns hrh
    have h4 : splitOnChar '#' ns = [ns] := splitOnChar_eq_single '#' ns hnsh
    simp [parse_query, h1, h2, h3, h4, hp]

/-- Claim C5, witness: the theorem applied to the query a/b. -/
theorem parse_query_spec_witness :
    parse_query ['a', '/', 'b'] =
      some { owner := ['a'], repo := ['b'], issue_number := none } :=
  parse_query_spec.1 ['a'] ['b'] (by decide) (by decide) (by decide)

/-! ## Claim C6: invariants of a constructed Query -/

/-- Claim C6, counterexample: the claim states that a constructed query has a
positive issue number, but the code accepts zero: a/b#0 parses with issue
number zero (and the bare-slash query of the C5 counterexample shows that
emptiness is not enforced either). -/
theorem parse_query_accepts_zero :
    parse_query ['a', '/', 'b', '#', '0'] =
      some { owner := ['a'], repo := ['b'], issue_number := some 0 } := by
  decide

/-- Claim C6 (amended): construction enforces no non-emptiness of owner or
repo and no positivity of the issue number (zero is accepted); what does hold
for every successfully parsed query is structural: the owner contains no
slash, the repo contains no slash and no hash mark, and the issue number,
when present, fits in 64 bits. -/
theorem parse_query_invariant (q : List Char) (qu : Query)
    (h : parse_query q = some qu) :
    ('/' ∉ qu.owner) ∧ ('/' ∉ qu.repo) ∧ ('#' ∉ qu.repo) ∧
    ∀ n, qu.issue_number = some n → n < 2 ^ 64 := by
  cases h1 : splitOnChar '/' q with
  | nil => exact absurd h1 (splitOnChar_ne_nil '/' q)
  | cons owner t1 =>
    cases t1 with
    | nil => simp [parse_query, h1] at h
    | cons rest t2 =>
      cases t2 with
      | cons u t3 => simp [parse_query, h1] at h
      | nil =>
        have howner : '/' ∉ owner :=
          not_mem_of_mem_splitOnChar '/' q owner (by rw [h1]; exact List.mem_cons_self _ _)
        have hrest : '/' ∉ rest :=
          not_mem_of_mem_splitOnChar '/' q rest
            (by rw [h1]; exact List.mem_cons_of_mem _ (List.mem_cons_self _ _))
        cases h2 : splitOnChar '#' rest with
        | nil => exact absurd h2 (splitOnChar_ne_nil '#' rest)
        | cons repo t4 =>
          have hrepo_mem : repo ∈ splitOnChar '#' rest := by
            rw [h2]; exact List.mem_cons_self _ _
          have hrepoHash : '#' ∉ repo := not_mem_of_mem_splitOnChar '#' rest repo hrepo_mem
          have hrepoSlash : '/' ∉ repo := fun hm =>
            hrest (mem_of_mem_splitOnChar '#' rest repo hrepo_mem '/' hm)
          cases t4 with
          | nil =>
            simp only [parse_query, h1, h2, Option.some.injEq] at h
            subst h
            refine ⟨howner, hrepoSlash, hrepoHash, ?_⟩
            intro n hn
            exact absurd hn (by simp)
          | cons num t5 =>
            cases t5 with
            | cons u t6 => simp [parse_query, h1, h2] at h
            | nil =>
              cases hp : parse_usize num with
              | none => simp [parse_query, h1, h2, hp] at h
              | some n =>
                simp only [parse_query, h1, h2, hp, Option.some.injEq] at h
                subst h
                refine ⟨howner, hrepoSlash, hrepoHash, ?_⟩
                intro m hm
                have : n = m := by simpa using hm
                exact this ▸ parse_usize_lt num n hp

/-- Claim C6, witness: the invariant applied to the parsed query a/b#5. -/
theorem parse_query_invariant_witness :
    ('/' ∉ (['a'] : List Char)) ∧ ('/' ∉ (['b'] : List Char)) ∧
    ('#' ∉ (['b'] : List Char)) ∧
    ∀ n, (some 5 : Option Nat) = some n → n < 2 ^ 64 :=
  parse_query_invariant ['a', '/', 'b', '#', '5']
    { owner := ['a'], repo := ['b'], issue_number := some 5 } (by decide)

/-! ## Claim C8: mkdir is idempotent -/

/-- Claim C8 (confirmed): creating the output directory when it already
exists is success, not an error; creating it when the environment injects no
fault is also success (whether or not it exists, hence running mkdir after a
successful creation succeeds again); and any creation failure other than
AlreadyExists is returned as an error carrying the cause unchanged. -/
theorem mkdir_spec :
    (∀ fs path, path ∈ fs.dirs → mkdir fs path = Except.ok ())
    ∧ (∀ fs path, fs.faults path = none → mkdir fs path = Except.ok ())
    ∧ (∀ fs path fs₂, create_dir fs path = Except.ok fs₂ → mkdir fs₂ path = Except.ok ())
    ∧ (∀ fs path err, create_dir fs path = Except.error err →
        err.kind ≠ IoErrorKind.alreadyExists → mkdir fs path = Except.error err) := by
  refine ⟨?_, ?_, ?_, ?_⟩
  · intro fs path h
    simp [mkdir, create_dir, h]
  · intro fs path h
    by_cases hm : path ∈ fs.dirs
    · simp [mkdir, create_dir, hm]
    · simp [mkdir, create_dir, hm, h]
  · intro fs path fs₂ h
    simp only [create_dir] at h
    split at h
    · exact absurd h (by simp)
    · cases hf : fs.faults path with
      | some k => rw [hf] at h; exact absurd h (by simp)
      | none =>
        rw [hf] at h
        have h2 := Except.ok.inj h
        subst h2
        simp [mkdir, create_dir]
  · intro fs path err h hk
    obtain ⟨k⟩ := err
    cases k with
    | alreadyExists => exact absurd rfl hk
    | notFound => simp [mkdir, h]
    | permissionDenied => simp [mkdir, h]
    | otherKind => simp [mkdir, h]

/-- Claim C8, witness: creating the already-existing directory md in the
sample filesystem succeeds. -/
theorem mkdir_spec_witness : mkdir sampleFs ['m', 'd'] = Except.ok () :=
  mkdir_spec.1 sampleFs ['m', 'd'] (by decide)

/-! ## Claim C9: an unparseable endpoint panics instead of erroring -/

/-- Claim C9 (confirmed): when the URI parser rejects the endpoint string,
Github::get panics (the expect call at main.rs:80) and never produces an
error value of its Result type, for every client, transport and decoder. -/
theorem get_bad_uri_panics {α : Type} (g : Github)
    (transport : RequestModel → Except HyperErr (Bool × List Nat))
    (decode : List Nat → Option α) (perr : UriErr) :
    Github.get g (Except.error perr) transport decode = GetOutcome.panicked
    ∧ ∀ e, Github.get g (Except.error perr) transport decode ≠ GetOutcome.error e :=
  ⟨rfl, fun _e h => nomatch h⟩

/-! ## Claim C4: request headers -/

/-- Claim C4, counterexample: the claim states the Authorization header has
the form Bearer SP token, but the code formats it with the token scheme: for
the raw token abc the header value is token SP abc, which differs from
Bearer SP abc. -/
theorem build_request_not_bearer :
    (build_request (Github.new [] ['a', 'b', 'c']) { raw := [] }).authorization =
      ['t', 'o', 'k', 'e', 'n', ' ', 'a', 'b', 'c']
    ∧ (build_request (Github.new [] ['a', 'b', 'c']) { raw := [] }).authorization ≠
      ['B', 'e', 'a', 'r', 'e', 'r', ' ', 'a', 'b', 'c'] :=
  ⟨by decide, by decide⟩

/-- Claim C4 (amended): every request built by the client carries the
configured user agent, an Authorization value of the form token SP raw-token
(the token scheme of the pre-Bearer GitHub API, never the Bearer scheme), the
JSON content type, content length zero, and the GET method. -/
theorem build_request_headers (agent token : List Char) (uri : Uri) :
    (build_request (Github.new agent token) uri).user_agent = agent
    ∧ (build_request (Github.new agent token) uri).authorization = tokenWord ++ token
    ∧ (build_request (Github.new agent token) uri).content_type = applicationJson
    ∧ (build_request (Github.new agent token) uri).content_length = 0
    ∧ (build_request (Github.new agent token) uri).method = HttpMethod.get
    ∧ ∀ t : List Char,
        (build_request (Github.new agent token) uri).authorization ≠
          ['B', 'e', 'a', 'r', 'e', 'r', ' '] ++ t := by
  refine ⟨rfl, rfl, rfl, rfl, rfl, ?_⟩
  intro t h
  simp [build_request, Github.new, tokenWord] at h

/-! ## Claim C3: error kind on a non-success response -/

/-- Claim C3, counterexample: the claim states that a non-success response
whose body is not valid UTF-8 still yields RequestFailed with a lossily
decoded body; but the code decodes strictly, so the byte 255 produces the
foreign-linked Utf8 error, not ErrorKind::Request. -/
theorem get_nonsuccess_invalid_utf8 :
    Github.get (Github.new [] []) (Except.ok { raw := [] })
      (fun _ => Except.ok (false, [255])) (fun _ => (none : Option Nat)) =
      GetOutcome.error GetError.utf8
    ∧ isRequestError (Github.get (Github.new [] []) (Except.ok { raw := [] })
        (fun _ => Except.ok (false, [255])) (fun _ => (none : Option Nat))) = false :=
  ⟨by decide, by decide⟩

/-- Claim C3 (amended): on a non-success HTTP status, if the body is valid
UTF-8 the client fails with ErrorKind::Request carrying the body text, and if
the body is not valid UTF-8 it fails with the Utf8 error of the strict
str::from_utf8 conversion (decoding is strict, not lossy). -/
theorem get_nonsuccess_error_kinds {α : Type} (g : Github) (uri : Uri)
    (transport : RequestModel → Except HyperErr (Bool × List Nat))
    (decode : List Nat → Option α) (chunk : List Nat)
    (h : transport (build_request g uri) = Except.ok (false, chunk)) :
    (utf8Valid chunk = true →
      Github.get g (Except.ok uri) transport decode =
        GetOutcome.error (GetError.request chunk))
    ∧ (utf8Valid chunk = false →
      Github.get g (Except.ok uri) transport decode = GetOutcome.error GetError.utf8) := by
  constructor <;> intro hv <;> simp [Github.get, h, hv]

/-- Claim C3, witness: a non-success response with the valid UTF-8 body hi
produces ErrorKind::Request carrying that body. -/
theorem get_nonsuccess_error_kinds_witness :
    Github.get (Github.new [] []) (Except.ok { raw := [] }) cTransportHi
      (fun _ => (none : Option Nat)) = GetOutcome.error (GetError.request [104, 105]) :=
  (get_nonsuccess_error_kinds (Github.new [] []) { raw := [] } cTransportHi
    (fun _ => (none : Option Nat)) [104, 105] rfl).1 (by decide)

/-! ## Lemmas about joinAll and the fetch pipeline -/

theorem joinAll_error_unique {ε α : Type} (e : ε) :
    ∀ l : List (Except ε α), Except.error e ∈ l →
      (∀ e₂, Except.error e₂ ∈ l → e₂ = e) → joinAll l = Except.error e := by
  intro l
  induction l with
  | nil => intro hmem _; simp at hmem
  | cons x rest ih =>
    intro hmem huniq
    cases x with
    | error e₂ =>
      have he := huniq e₂ (List.mem_cons_self _ _)
      subst he
      rfl
    | ok v =>
      have hm : Except.error e ∈ rest := by
        rcases List.mem_cons.mp hmem with hx | hx
        · exact absurd hx (by simp)
        · exact hx
      have hu : ∀ e₂, Except.error e₂ ∈ rest → e₂ = e := fun e₂ hx =>
        huniq e₂ (List.mem_cons_of_mem _ hx)
      simp [joinAll, ih hm hu]

theorem joinAll_error_exists {ε α : Type} :
    ∀ l : List (Except ε α), (∃ e, Except.error e ∈ l) →
      ∃ e₂, joinAll l = Except.error e₂ := by
  intro l
  induction l with
  | nil =>
    intro h
    obtain ⟨e, he⟩ := h
    simp at he
  | cons x rest ih =>
    intro h
    obtain ⟨e, he⟩ := h
    cases x with
    | error e₂ => exact ⟨e₂, rfl⟩
    | ok v =>
      have hm : ∃ e, Except.error e ∈ rest := by
        rcases List.mem_cons.mp he with hx | hx
        · exact absurd hx (by simp)
        · exact ⟨e, hx⟩
      obtain ⟨e₃, h3⟩ := ih hm
      exact ⟨e₃, by simp [joinAll, h3]⟩

theorem fut_issues_with_comments_ok
    (fetch : List Char → Except GetError (List Comment))
    (comments : List Char → List Comment) :
    ∀ issues : List Issue,
      (∀ i ∈ issues, fetch i.comments_url = Except.ok (comments i.comments_url)) →
      fut_issues_with_comments issues fetch =
        Except.ok (issues.map (fun i => (i, comments i.comments_url))) := by
  intro issues
  induction issues with
  | nil => intro _; rfl
  | cons i rest ih =>
    intro h
    have hi := h i (List.mem_cons_self _ _)
    have hr := ih (fun j hj => h j (List.mem_cons_of_mem _ hj))
    simp only [fut_issues_with_comments, List.map_cons, Except.map] at hr ⊢
    simp [joinAll, hi, hr]

theorem fut_issues_with_comments_error
    (fetch : List Char → Except GetError (List Comment)) (e : GetError)
    (issues : List Issue)
    (hmem : ∃ i ∈ issues, fetch i.comments_url = Except.error e)
    (huniq : ∀ j ∈ issues, ∀ e₂, fetch j.comments_url = Except.error e₂ → e₂ = e) :
    fut_issues_with_comments issues fetch = Except.error e := by
  apply joinAll_error_unique
  · obtain ⟨i, hi, hf⟩ := hmem
    exact List.mem_map.mpr ⟨i, hi, by rw [hf]; rfl⟩
  · intro e₂ hm
    obtain ⟨j, hj, hfj⟩ := List.mem_map.mp hm
    cases hc : fetch j.comments_url with
    | ok cs =>
      rw [hc] at hfj
      exact absurd hfj (by simp [Except.map])
    | error e₃ =>
      rw [hc] at hfj
      have he : e₃ = e₂ := by simpa [Except.map] using hfj
      exact he ▸ huniq j hj e₃ hc

theorem fut_issues_with_comments_some_error
    (fetch : List Char → Except GetError (List Comment)) (issues : List Issue)
    (hmem : ∃ i ∈ issues, ∃ e, fetch i.comments_url = Except.error e) :
    ∃ e₂, fut_issues_with_comments issues fetch = Except.error e₂ := by
  apply joinAll_error_exists
  obtain ⟨i, hi, e, hf⟩ := hmem
  exact ⟨e, List.mem_map.mpr ⟨i, hi, by rw [hf]; rfl⟩⟩

/-! ## Claim C2: fail-fast on any comment-fetch failure -/

/-- Claim C2 (confirmed): if the comment fetch of an issue in the resolved
set fails (and every failing fetch fails with that error, as is the case when
a single fetch fails), the run fails with that error and writes no files; if
some fetch fails, the run fails and writes no files; and the serialization
phase (a successful run result) is reached only when every fetch succeeded. -/
theorem run_fail_fast :
    (∀ (du : Char → Option (List Nat)) (issues : List Issue)
        (fetch : List Char → Except GetError (List Comment)) (path : List Nat)
        (i : Issue) (e : GetError), i ∈ issues →
        fetch i.comments_url = Except.error e →
        (∀ j ∈ issues, ∀ e₂, fetch j.comments_url = Except.error e₂ → e₂ = e) →
        run du issues fetch path = (Except.error e, []))
    ∧ (∀ (du : Char → Option (List Nat)) (issues : List Issue)
        (fetch : List Char → Except GetError (List Comment)) (path : List Nat),
        (∃ i ∈ issues, ∃ e, fetch i.comments_url = Except.error e) →
        (∃ e, (run du issues fetch path).1 = Except.error e) ∧
          (run du issues fetch path).2 = [])
    ∧ (∀ (du : Char → Option (List Nat)) (issues : List Issue)
        (fetch : List Char → Except GetError (List Comment)) (path : List Nat),
        (run du issues fetch path).1 = Except.ok () →
        ∀ i ∈ issues, ∃ cs, fetch i.comments_url = Except.ok cs) := by
  refine ⟨?_, ?_, ?_⟩
  · intro du issues fetch path i e hi hf hu
    have h := fut_issues_with_comments_error fetch e issues ⟨i, hi, hf⟩ hu
    simp [run, fut_data, h, Except.map]
  · intro du issues fetch path hex
    obtain ⟨e₂, h⟩ := fut_issues_with_comments_some_error fetch issues hex
    refine ⟨⟨e₂, ?_⟩, ?_⟩
    · simp [run, fut_data, h, Except.map]
    · simp [run, fut_data, h, Except.map]
  · intro du issues fetch path hok i hi
    cases hc : fetch i.comments_url with
    | ok cs => exact ⟨cs, rfl⟩
    | error e =>
      exfalso
      obtain ⟨e₂, h⟩ := fut_issues_with_comments_some_error fetch issues ⟨i, hi, e, hc⟩
      have h1 : (run du issues fetch path).1 = Except.error e₂ := by
        simp [run, fut_data, h, Except.map]
      rw [h1] at hok
      exact absurd hok (by simp)

/-- Claim C2, witness: a one-issue run whose comment fetch fails produces
exactly that error and writes nothing. -/
theorem run_fail_fast_witness :
    run (fun _ => none) [sampleIssue] cFetchFail [] = (Except.error sampleErr, []) :=
  run_fail_fast.1 (fun _ => none) [sampleIssue] cFetchFail [] sampleIssue sampleErr
    (List.mem_cons_self _ _) rfl
    (fun _j _hj e₂ he => by
      have h : Except.error sampleErr = Except.error e₂ := he
      exact (Except.error.inj h).symm)

/-! ## Claim C10: order preservation -/

/-- Claim C10 (confirmed): when every comment fetch succeeds, the aggregate
list preserves the order of the issue list exactly, each aggregate carries
the comments of the fetch response for its issue unchanged (hence in response
order), the run succeeds, and the files are written in the same issue
order. -/
theorem run_preserves_order (du : Char → Option (List Nat)) (issues : List Issue)
    (fetch : List Char → Except GetError (List Comment))
    (comments : List Char → List Comment) (path : List Nat)
    (h : ∀ i ∈ issues, fetch i.comments_url = Except.ok (comments i.comments_url)) :
    fut_data issues fetch =
      Except.ok (issues.map (fun i => { issue := i, comments := comments i.comments_url }))
    ∧ (run du issues fetch path).1 = Except.ok ()
    ∧ (run du issues fetch path).2 =
      issues.map (fun i => issue_to_filename du path i) := by
  have hf := fut_issues_with_comments_ok fetch comments issues h
  have hd : fut_data issues fetch =
      Except.ok (issues.map (fun i =>
        ({ issue := i, comments := comments i.comments_url } : IssueWithComments))) := by
    simp [fut_data, hf, Except.map, List.map_map, Function.comp]
  refine ⟨hd, ?_, ?_⟩
  · simp [run, hd]
  · simp [run, hd, List.map_map, Function.comp]

/-- Claim C10, witness: a one-issue run with a successful fetch produces the
single aggregate and writes the single corresponding file. -/
theorem run_preserves_order_witness :
    fut_data [sampleIssue] cFetchOk =
      Except.ok [{ issue := sampleIssue, comments := cComments sampleIssue.comments_url }]
    ∧ (run (fun _ => none) [sampleIssue] cFetchOk []).1 = Except.ok ()
    ∧ (run (fun _ => none) [sampleIssue] cFetchOk []).2 =
      [issue_to_filename (fun _ => none) [] sampleIssue] :=
  run_preserves_order (fun _ => none) [sampleIssue] cFetchOk cComments []
    (fun _i _hi => rfl)

/-! ## Claim C1: concurrency of the fan-out -/

theorem pollAll_initState (n : Nat) :
    pollAll (initState n) = List.replicate n FetchStatus.inFlight := by
  simp [pollAll, initState, List.map_replicate]

theorem inFlightCount_replicate (n : Nat) :
    inFlightCount (List.replicate n FetchStatus.inFlight) = n := by
  induction n with
  | zero => rfl
  | succ n ih =>
    simp only [inFlightCount] at ih ⊢
    have hb : (FetchStatus.inFlight == FetchStatus.inFlight) = true := rfl
    simp [List.replicate_succ, List.countP_cons, ih, hb]

theorem initState_get?_ne (n i : Nat) :
    (initState n).get? i ≠ some FetchStatus.inFlight := by
  induction n generalizing i with
  | zero => simp [initState, List.replicate]
  | succ n ih =>
    cases i with
    | zero => simp [initState, List.replicate_succ]
    | succ i => simpa [initState, List.replicate_succ] using ih i

theorem initState_step_poll (n : Nat) (s₂ : PoolState)
    (hstep : JoinAllStep (initState n) s₂) : s₂ = pollAll (initState n) := by
  cases hstep with
  | poll => rfl
  | completes i h => exact absurd h (initState_get?_ne n i)

/-- Claim C1, counterexample: the claim bounds the number of in-flight
comment fetches by eight for more than eight issues; but with nine issues the
very first poll of join_all (a step the executor must take, and the only step
possible from the initial state) puts all nine fetches in flight at once,
exceeding eight. -/
theorem pool_nine_in_flight :
    JoinAllStep (initState 9) (pollAll (initState 9))
    ∧ inFlightCount (pollAll (initState 9)) = 9
    ∧ ¬ inFlightCount (pollAll (initState 9)) ≤ 8 :=
  ⟨JoinAllStep.poll _, by decide, by decide⟩

/-- Claim C1 (amended): the pipeline imposes no concurrency bound at all:
join_all starts every pending fetch on each poll, the only step possible from
the initial state is such a poll, and after it all n comment fetches are in
flight simultaneously; whenever n exceeds eight the claimed bound of eight is
therefore violated. -/
theorem pool_unbounded (n : Nat) :
    (∀ s₂, JoinAllStep (initState n) s₂ → s₂ = pollAll (initState n))
    ∧ JoinAllStep (initState n) (pollAll (initState n))
    ∧ inFlightCount (pollAll (initState n)) = n
    ∧ (8 < n → ¬ inFlightCount (pollAll (initState n)) ≤ 8) := by
  refine ⟨initState_step_poll n, JoinAllStep.poll _, ?_, ?_⟩
  · rw [pollAll_initState]
    exact inFlightCount_replicate n
  · intro h8
    rw [pollAll_initState, inFlightCount_replicate]
    omega

/-- Claim C1, witness: the amended theorem applied at nine issues. -/
theorem pool_unbounded_witness :
    ¬ inFlightCount (pollAll (initState 9)) ≤ 8 :=
  (pool_unbounded 9).2.2.2 (by decide)

/-! ## Lemmas about decimalDigits and pad3 -/

theorem decimalDigits_lt (n : Nat) (h : n < 10) : decimalDigits n = [48 + n] := by
  rw [decimalDigits]
  exact dif_pos h

theorem decimalDigits_ge (n : Nat) (h : ¬ n < 10) :
    decimalDigits n = decimalDigits (n / 10) ++ [48 + n % 10] := by
  conv_lhs => rw [decimalDigits]
  exact dif_neg h

theorem decimalDigits_ne_nil (n : Nat) : decimalDigits n ≠ [] := by
  by_cases h : n < 10
  · rw [decimalDigits_lt n h]; simp
  · rw [decimalDigits_ge n h]; simp

theorem decimalDigits_len_le (k : Nat) :
    ∀ n : Nat, n < 10 ^ k → (decimalDigits n).length ≤ max 1 k := by
  induction k with
  | zero =>
    intro n hn
    norm_num at hn
    subst hn
    rw [decimalDigits_lt 0 (by omega)]
    simp
  | succ k ih =>
    intro n hn
    by_cases h : n < 10
    · rw [decimalDigits_lt n h]
      simp [Nat.le_max_left]
    · rw [decimalDigits_ge n h]
      have hdiv : n / 10 < 10 ^ k := by
        rw [Nat.div_lt_iff_lt_mul (by omega)]
        calc n < 10 ^ (k + 1) := hn
        _ = 10 ^ k * 10 := by rw [Nat.pow_succ]
      have hk : 1 ≤ k := by
        by_contra hk0
        have hz : k = 0 := by omega
        subst hz
        rw [pow_one] at hn
        omega
      have hlen := ih (n / 10) hdiv
      rw [Nat.max_eq_right hk] at hlen
      rw [Nat.max_eq_right (by omega : 1 ≤ k + 1)]
      simp only [List.length_append, List.length_cons, List.length_nil]
      omega

theorem decimalDigits_len_ge (k : Nat) :
    ∀ n : Nat, 10 ^ k ≤ n → k + 1 ≤ (decimalDigits n).length := by
  induction k with
  | zero =>
    intro n _
    have h1 := decimalDigits_ne_nil n
    have h2 : 0 < (decimalDigits n).length := List.length_pos.mpr h1
    omega
  | succ k ih =>
    intro n hn
    have hpk : 1 ≤ 10 ^ k := Nat.one_le_pow _ _ (by omega)
    have h10 : ¬ n < 10 := by
      have h1 : 1 * 10 ≤ 10 ^ k * 10 := Nat.mul_le_mul_right 10 hpk
      have h2 : 10 ^ (k + 1) = 10 ^ k * 10 := by rw [Nat.pow_succ]
      omega
    rw [decimalDigits_ge n h10]
    have hdiv : 10 ^ k ≤ n / 10 := by
      rw [Nat.le_div_iff_mul_le (by omega)]
      calc 10 ^ k * 10 = 10 ^ (k + 1) := by rw [Nat.pow_succ]
      _ ≤ n := hn
    have hlen := ih (n / 10) hdiv
    simp only [List.length_append, List.length_cons, List.length_nil]
    omega

theorem decimalDigits_mem (n : Nat) : ∀ b ∈ decimalDigits n, 48 ≤ b ∧ b ≤ 57 := by
  induction n using Nat.strong_induction_on with
  | _ n ih =>
    by_cases h : n < 10
    · rw [decimalDigits_lt n h]
      intro b hb
      simp at hb
      omega
    · rw [decimalDigits_ge n h]
      intro b hb
      rcases List.mem_append.mp hb with hb | hb
      · exact ih (n / 10) (Nat.div_lt_self (by omega) (by omega)) b hb
      · simp at hb
        have hm : n % 10 < 10 := Nat.mod_lt n (by omega)
        omega

theorem pad3_length_eq_three (n : Nat) (h : n < 1000) : (pad3 n).length = 3 := by
  have hp : (10 : Nat) ^ 3 = 1000 := by norm_num
  have hle := decimalDigits_len_le 3 n (by omega)
  have h1 : 1 ≤ (decimalDigits n).length :=
    List.length_pos.mpr (decimalDigits_ne_nil n)
  have h3 : (decimalDigits n).length ≤ 3 := by
    rw [Nat.max_eq_right (by omega : 1 ≤ 3)] at hle
    exact hle
  simp only [pad3, List.length_append, List.length_replicate]
  omega

theorem pad3_of_ge (n : Nat) (h : 1000 ≤ n) : pad3 n = decimalDigits n := by
  have hp : (10 : Nat) ^ 3 = 1000 := by norm_num
  have hge := decimalDigits_len_ge 3 n (by omega)
  unfold pad3
  have h0 : 3 - (decimalDigits n).length = 0 := by omega
  rw [h0]
  simp

theorem pad3_mem (n : Nat) : ∀ b ∈ pad3 n, 48 ≤ b ∧ b ≤ 57 := by
  intro b hb
  unfold pad3 at hb
  rcases List.mem_append.mp hb with hb | hb
  · have hr := List.eq_of_mem_replicate hb
    omega
  · exact decimalDigits_mem n b hb

/-! ## Lemmas about the slug accumulator -/

theorem head?_concat_ne (l : List Nat) (x y : Nat) (hl : l.head? ≠ some y)
    (hx : x ≠ y) : (l ++ [x]).head? ≠ some y := by
  cases l with
  | nil => simpa using hx
  | cons a t => simpa using hl

theorem head?_append_left (l m : List Nat) (h : l ≠ []) : (l ++ m).head? = l.head? := by
  cases l with
  | nil => exact absurd rfl h
  | cons a t => rfl

theorem noTwoDashes_concat (l : List Nat) (x : Nat) (h : NoTwoDashes l)
    (hlast : l.getLast? = some 45 → x ≠ 45) : NoTwoDashes (l ++ [x]) := by
  unfold NoTwoDashes at h ⊢
  rw [List.chain'_append]
  refine ⟨h, List.chain'_singleton x, ?_⟩
  intro p hp q hq
  simp only [List.head?_cons, Option.mem_def, Option.some.injEq] at hq
  subst hq
  intro hpq
  obtain ⟨hp45, hx45⟩ := hpq
  have hsome : l.getLast? = some 45 := by rw [← hp45]; exact Option.mem_def.mp hp
  exact hlast hsome hx45

theorem noTwoDashes_dropLast (l : List Nat) (h : NoTwoDashes l) :
    NoTwoDashes l.dropLast := by
  unfold NoTwoDashes at h ⊢
  exact List.Chain'.prefix h (List.dropLast_prefix l)

theorem head?_dropLast_ne (l : List Nat) (y : Nat) (h : l.head? ≠ some y) :
    l.dropLast.head? ≠ some y := by
  cases l with
  | nil => simp
  | cons a t =>
    cases t with
    | nil => simp
    | cons b r =>
      have hd : (a :: b :: r).dropLast = a :: (b :: r).dropLast := rfl
      rw [hd]
      simpa using h

theorem getLast?_dropLast_ne (l : List Nat) (h : NoTwoDashes l)
    (hl : l.getLast? = some 45) : l.dropLast.getLast? ≠ some 45 := by
  have hne : l ≠ [] := by
    intro e
    rw [e] at hl
    simp at hl
  have hdecomp : l.dropLast ++ [l.getLast hne] = l := List.dropLast_append_getLast hne
  have hlast45 : l.getLast hne = 45 := by
    have hg := List.getLast?_eq_getLast l hne
    rw [hg] at hl
    exact Option.some.inj hl
  unfold NoTwoDashes at h
  rw [← hdecomp, List.chain'_append] at h
  obtain ⟨h1, h2, h3⟩ := h
  intro hcon
  have h45 := h3 45 (Option.mem_def.mpr hcon) (l.getLast hne) (by simp)
  exact h45 ⟨rfl, hlast45⟩

theorem slugPush_inv (st : List Nat × Bool) (x : Nat) (h : SlugInv st) :
    SlugInv (slugPush st x) := by
  obtain ⟨hmem, hhead, hchain, hflag⟩ := h
  unfold slugPush
  split_ifs with h1 h2 h3
  · refine ⟨?_, ?_, ?_, ?_⟩
    · intro b hb
      rcases List.mem_append.mp hb with hb | hb
      · exact hmem b hb
      · simp only [List.mem_singleton] at hb
        subst hb
        rcases h1 with h1 | h1
        · exact Or.inl h1
        · exact Or.inr (Or.inl h1)
    · exact head?_concat_ne st.1 x 45 hhead (by rcases h1 with h1 | h1 <;> omega)
    · exact noTwoDashes_concat st.1 x hchain (fun _ => by rcases h1 with h1 | h1 <;> omega)
    · apply iff_of_false (by simp)
      intro hor
      rcases hor with hor | hor
      · simp at hor
      · rw [List.getLast?_concat] at hor
        have hx := Option.some.inj hor
        rcases h1 with h1 | h1 <;> omega
  · refine ⟨?_, ?_, ?_, ?_⟩
    · intro b hb
      rcases List.mem_append.mp hb with hb | hb
      · exact hmem b hb
      · simp only [List.mem_singleton] at hb
        subst hb
        exact Or.inl (by omega)
    · exact head?_concat_ne st.1 (x - 65 + 97) 45 hhead (by omega)
    · exact noTwoDashes_concat st.1 (x - 65 + 97) hchain (fun _ => by omega)
    · apply iff_of_false (by simp)
      intro hor
      rcases hor with hor | hor
      · simp at hor
      · rw [List.getLast?_concat] at hor
        have hx := Option.some.inj hor
        omega
  · exact ⟨hmem, hhead, hchain, hflag⟩
  · have hne : ¬(st.1 = [] ∨ st.1.getLast? = some 45) := by
      intro hor
      exact h3 (hflag.mpr hor)
    push_neg at hne
    obtain ⟨hne1, hne2⟩ := hne
    refine ⟨?_, ?_, ?_, ?_⟩
    · intro b hb
      rcases List.mem_append.mp hb with hb | hb
      · exact hmem b hb
      · simp only [List.mem_singleton] at hb
        subst hb
        exact Or.inr (Or.inr rfl)
    · rw [head?_append_left st.1 [45] hne1]
      exact hhead
    · exact noTwoDashes_concat st.1 45 hchain (fun hl45 => absurd hl45 hne2)
    · apply iff_of_true rfl
      exact Or.inr (by rw [List.getLast?_concat])

theorem foldl_slugPush_inv (l : List Nat) :
    ∀ st, SlugInv st → SlugInv (l.foldl slugPush st) := by
  induction l with
  | nil => intro st h; exact h
  | cons x r ih => intro st h; exact ih _ (slugPush_inv st x h)

theorem slugChar_inv (du : Char → Option (List Nat)) (st : List Nat × Bool)
    (c : Char) (h : SlugInv st) : SlugInv (slugChar du st c) := by
  unfold slugChar
  split
  · exact slugPush_inv st c.toNat h
  · exact foldl_slugPush_inv _ st h

theorem foldl_slugChar_inv (du : Char → Option (List Nat)) (t : List Char) :
    ∀ st, SlugInv st → SlugInv (t.foldl (slugChar du) st) := by
  induction t with
  | nil => intro st h; exact h
  | cons c r ih => intro st h; exact ih _ (slugChar_inv du st c h)

theorem slugInv_init : SlugInv (([] : List Nat), true) := by
  refine ⟨?_, ?_, ?_, ?_⟩
  · intro b hb
    simp at hb
  · simp
  · exact List.chain'_nil
  · simp

theorem slugify_props (du : Char → Option (List Nat)) (t : List Char) :
    (∀ b ∈ slugify du t, IsSlugByte b)
    ∧ (slugify du t).head? ≠ some 45
    ∧ (slugify du t).getLast? ≠ some 45
    ∧ NoTwoDashes (slugify du t) := by
  obtain ⟨hmem, hhead, hchain, _⟩ := foldl_slugChar_inv du t ([], true) slugInv_init
  simp only [slugify]
  split_ifs with hlast
  · refine ⟨?_, ?_, ?_, ?_⟩
    · intro b hb
      exact hmem b (List.dropLast_subset _ hb)
    · exact head?_dropLast_ne _ 45 hhead
    · exact getLast?_dropLast_ne _ hchain hlast
    · exact noTwoDashes_dropLast _ hchain
  · exact ⟨hmem, hhead, hlast, hchain⟩

/-! ## Claim C7: filename computation -/

/-- Claim C7 (confirmed): the filename is computed by a pure function of the
issue number and title (hence deterministic); the number segment is the
decimal number zero-padded to exactly three digits for numbers below 1000 and
the full untruncated digits otherwise, consisting of ASCII digit bytes; the
name ends in the .md extension; and the title segment is exactly the
slugified title, whose bytes are lowercase letters, digits or hyphens, with
no leading hyphen, no trailing hyphen and no two adjacent hyphens. -/
theorem issue_to_filename_spec (du : Char → Option (List Nat)) (path : List Nat)
    (i : Issue) :
    issue_to_filename du path i =
      path ++ [47] ++ pad3 i.number ++ [45] ++ slugify du i.title ++ [46, 109, 100]
    ∧ (i.number < 1000 → (pad3 i.number).length = 3)
    ∧ (1000 ≤ i.number → pad3 i.number = decimalDigits i.number)
    ∧ (∀ b ∈ pad3 i.number, 48 ≤ b ∧ b ≤ 57)
    ∧ [46, 109, 100] <:+ issue_to_filename du path i
    ∧ (∀ b ∈ slugify du i.title, IsSlugByte b)
    ∧ (slugify du i.title).head? ≠ some 45
    ∧ (slugify du i.title).getLast? ≠ some 45
    ∧ NoTwoDashes (slugify du i.title) := by
  obtain ⟨h1, h2, h3, h4⟩ := slugify_props du i.title
  exact ⟨rfl, pad3_length_eq_three i.number, pad3_of_ge i.number, pad3_mem i.number,
    ⟨path ++ [47] ++ pad3 i.number ++ [45] ++ slugify du i.title, by
      simp [issue_to_filename, List.append_assoc]⟩, h1, h2, h3, h4⟩

/-- Claim C7, witness: the number segment of the sample issue (number 1) has
exactly three bytes, and the issue with number 1234 keeps all four digits. -/
theorem issue_to_filename_spec_witness :
    (pad3 sampleIssue.number).length = 3
    ∧ pad3 bigIssue.number = decimalDigits bigIssue.number :=
  ⟨(issue_to_filename_spec (fun _ => none) [] sampleIssue).2.1 (by decide),
   (issue_to_filename_spec (fun _ => none) [] bigIssue).2.2.1 (by decide)⟩

end Ghie
